import Mathlib

/-!
Verification of the Yoda scheduler decision core
(`src/pkg/yoda/scheduler.go`) against its specification.

The Go plugin is embedded shallowly: machine integers (`int64`) become
`Int` (Go's truncating division is `Int.tdiv`), the fallible read
`scores[0]` on a possibly-empty slice becomes an `Option`, and the
external inventory store lookup (`scvClient.Get`) becomes an
`Except String` parameter.  The helper packages `filter`, `score`,
`collection` and `sort` are not part of the visible source; the helpers
the claims need are modelled from the specification and marked as such.
-/

namespace Yoda

/-- Status codes of `framework.Status` used by the plugin. -/
inductive Code where
  | Success
  | Unschedulable
  | Error
deriving Repr, DecidableEq

/-- A `framework.Status`: a status code plus a human-readable reason. -/
structure Status where
  code : Code
  reason : String
deriving Repr, DecidableEq

/-- `framework.MaxNodeScore` from the Kubernetes scheduler framework. -/
def MaxNodeScore : Int := 100

/-- One entry of a `framework.NodeScoreList`: machine name and signed score. -/
structure NodeScore where
  name : String
  score : Int
deriving Repr, DecidableEq

/-- The `lowest` accumulator of the loop in `NormalizeScore`:
`if nodeScore.Score < lowest { lowest = nodeScore.Score }`. -/
def lowestOf (scores : List NodeScore) (init : Int) : Int :=
  scores.foldl (fun l ns => if ns.score < l then ns.score else l) init

/-- The `highest` accumulator of the loop in `NormalizeScore`:
`if nodeScore.Score > highest { highest = nodeScore.Score }`. -/
def highestOf (scores : List NodeScore) (init : Int) : Int :=
  scores.foldl (fun h ns => if h < ns.score then ns.score else h) init

/-- The `highest` bound `NormalizeScore` divides by: the loop accumulator
started at `0` (`var highest int64 = 0`). -/
def normHighest (s0 : NodeScore) (rest : List NodeScore) : Int :=
  highestOf (s0 :: rest) 0

/-- The `lowest` bound `NormalizeScore` subtracts: the loop accumulator
started at `scores[0].Score`, decremented once if it equals `highest`
(`if highest == lowest { lowest -- }`). -/
def normLowest (s0 : NodeScore) (rest : List NodeScore) : Int :=
  if normHighest s0 rest = lowestOf (s0 :: rest) s0.score
  then lowestOf (s0 :: rest) s0.score - 1
  else lowestOf (s0 :: rest) s0.score

/-- Two's-complement wraparound of Go `int64` arithmetic: reduces an
integer into `[-2^63, 2^63)` (the literals are `2^63` and `2^64`). -/
def wrap64 (x : Int) : Int :=
  (x + 9223372036854775808) % 18446744073709551616 - 9223372036854775808

/-- The rewrite `NormalizeScore` applies to each entry:
`scores[i].Score = (nodeScore.Score - lowest) * framework.MaxNodeScore /
(highest - lowest)` evaluated as Go `int64` arithmetic: the subtractions,
the product and the truncating quotient each wrap around at 64 bits
(the accumulators `lowest`/`highest` themselves only ever hold comparison
results of in-range values, so they carry no wrap). -/
def normRewrite (s0 : NodeScore) (rest : List NodeScore) (ns : NodeScore) : NodeScore :=
  { ns with score :=
      wrap64 ((wrap64 (wrap64 (ns.score - normLowest s0 rest) * MaxNodeScore)).tdiv
        (wrap64 (normHighest s0 rest - normLowest s0 rest))) }

/-- `Yoda.NormalizeScore` from `scheduler.go`.  `lowest` is initialised to
`scores[0].Score` (a panic — `none` — on an empty list) and `highest` to `0`;
one pass updates both; if `highest == lowest` then `lowest` is decremented;
every entry is rewritten by `normRewrite`. -/
def NormalizeScore (scores : List NodeScore) : Option (List NodeScore) :=
  match scores with
  | [] => none
  | s0 :: rest => some ((s0 :: rest).map (normRewrite s0 rest))

/-- Specification-side minimum of a score list (`lowest = min(scores)`). -/
def specMin (scores : List NodeScore) (init : Int) : Int :=
  scores.foldl (fun l ns => min l ns.score) init

/-- Specification-side maximum of a score list (`highest = max(scores)`). -/
def specMax (scores : List NodeScore) (init : Int) : Int :=
  scores.foldl (fun h ns => max h ns.score) init

/-- One Device entry of a machine's advertised inventory (an SCV resource):
free unit count, memory per unit, clock per unit. -/
structure Device where
  count : Nat
  memoryPerUnit : Nat
  clockPerUnit : Nat
deriving Repr, DecidableEq

/-- A workload's parsed resource request: device count, memory floor,
clock floor. -/
structure ResourceRequest where
  number : Nat
  memory : Nat
  clock : Nat
deriving Repr, DecidableEq

/-- Modelled from the spec: `filter.PodFitsNumber` (package
`pkg/yoda/filter`, not in the visible source).  "Selects the first Device
entry in inventory whose free `count` is ≥ requested device count; if none
exists, returns `fits=false`"; on success it also returns the matched
index used by the subsequent dimension checks. -/
def PodFitsNumber (req : ResourceRequest) (inv : List Device) : Bool × Nat :=
  match inv.findIdx? (fun d => decide (req.number ≤ d.count)) with
  | some i => (true, i)
  | none => (false, 0)

/-- Modelled from the spec: `filter.PodFitsMemory` (package
`pkg/yoda/filter`, not in the visible source).  Memory fitness of the
matched device: `matchedDevice.memoryPerUnit ≥ request.memoryPerUnit`. -/
def PodFitsMemory (idx : Nat) (req : ResourceRequest) (inv : List Device) : Bool :=
  match inv.get? idx with
  | some d => decide (req.memory ≤ d.memoryPerUnit)
  | none => false

/-- Modelled from the spec: `filter.PodFitsClock` (package
`pkg/yoda/filter`, not in the visible source).  Clock fitness of the
matched device: `matchedDevice.clockPerUnit ≥ request.clockPerUnit`. -/
def PodFitsClock (idx : Nat) (req : ResourceRequest) (inv : List Device) : Bool :=
  match inv.get? idx with
  | some d => decide (req.clock ≤ d.clockPerUnit)
  | none => false

/-- `Yoda.Filter` from `scheduler.go`.  The SCV store lookup
(`y.scvClient.Get`) is passed in as an `Except`: on lookup error the
status is `Unschedulable` with reason `"Node:<name> <error>"`; otherwise
the number check runs first, and only if it passes are the memory and
clock checks evaluated; any failure yields `Unschedulable` with reason
`"Node:<name>"`. -/
def Filter (nodeName : String) (lookup : Except String (List Device))
    (req : ResourceRequest) : Status :=
  match lookup with
  | .error e => ⟨.Unschedulable, "Node:" ++ nodeName ++ " " ++ e⟩
  | .ok currentScv =>
    let fitsNum := PodFitsNumber req currentScv
    if fitsNum.1 then
      let isFitsMemory := PodFitsMemory fitsNum.2 req currentScv
      let isFitsClock := PodFitsClock fitsNum.2 req currentScv
      if isFitsMemory && isFitsClock then ⟨.Success, ""⟩
      else ⟨.Unschedulable, "Node:" ++ nodeName⟩
    else ⟨.Unschedulable, "Node:" ++ nodeName⟩

/-- Per-cycle shared state written by the Aggregator: the recorded maximum
per dimension, `none` when the Aggregator has not written that key. -/
structure CycleState where
  maxNumber : Option Nat
  maxMemory : Option Nat
  maxClock : Option Nat
deriving Repr, DecidableEq

/-- Maximum of one device dimension over a machine's inventory. -/
def dimMax (inv : List Device) (f : Device → Nat) : Nat :=
  inv.foldl (fun a d => max a (f d)) 0

/-- Modelled from the spec: one dimension's normalized ratio in the Scorer,
`value/maximum` scaled to an integer range, `0` when the maximum is `0`. -/
def dimRatio (v m : Nat) : Nat :=
  if m = 0 then 0 else v * 100 / m

/-- Modelled from the spec: `score.CalculateScore` (package
`pkg/yoda/score`, not in the visible source).  Reads the per-dimension
maxima from CycleState; "if a required maximum is missing, this is an
internal-consistency error ... and must be reported as an error, not
defaulted"; otherwise combines the three per-dimension ratios into one
unsigned score (a monotone sum of ratios — the exact weights are policy). -/
def CalculateScore (inv : List Device) (state : CycleState) : Except String Nat :=
  match state.maxNumber, state.maxMemory, state.maxClock with
  | some mn, some mm, some mc =>
    .ok (dimRatio (dimMax inv (fun d => d.count)) mn
      + dimRatio (dimMax inv (fun d => d.memoryPerUnit)) mm
      + dimRatio (dimMax inv (fun d => d.clockPerUnit)) mc)
  | _, _, _ => .error "max value missing from cycle state"

/-- Modelled from the spec: `filter.Uint64ToInt64` (package
`pkg/yoda/filter`, not in the visible source) converts the Scorer's
unsigned score to the signed score the framework expects. -/
def Uint64ToInt64 (u : Nat) : Int :=
  Int.ofNat u

/-- `Yoda.Score` from `scheduler.go`.  The node-info snapshot lookup and
the SCV store lookup are passed in as `Except` values; each error path
returns `(0, Error status)` with the formatted reason from the source, and
a `CalculateScore` error is wrapped as `"Score Node Error: <err>"`. -/
def Score (nodeName : String) (nodeInfoLookup : Except String Unit)
    (scvLookup : Except String (List Device)) (state : CycleState) : Int × Status :=
  match nodeInfoLookup with
  | .error e =>
    (0, ⟨.Error, "getting node \"" ++ nodeName ++ "\" from Snapshot: " ++ e⟩)
  | .ok _ =>
    match scvLookup with
    | .error e => (0, ⟨.Error, "Score Node Error: " ++ e⟩)
    | .ok currentScv =>
      match CalculateScore currentScv state with
      | .error e => (0, ⟨.Error, "Score Node Error: " ++ e⟩)
      | .ok u => (Uint64ToInt64 u, ⟨.Success, ""⟩)

/-- A queued pod as the comparator sees it: declared priority and arrival
timestamp. -/
structure QueuedPodInfo where
  priority : Int
  timestamp : Nat
deriving Repr, DecidableEq

/-- Modelled from the spec: `sort.Less` (package `pkg/yoda/sort`, not in
the visible source), the Queue Comparator.  The spec's example ordering
key: declared priority first (higher priority first), then arrival time
(earlier first). -/
def Less (a b : QueuedPodInfo) : Bool :=
  decide (b.priority < a.priority)
    || (decide (a.priority = b.priority) && decide (a.timestamp < b.timestamp))

end Yoda

namespace Yoda

theorem lowestOf_eq_specMin (l : List NodeScore) (i : Int) :
    lowestOf l i = specMin l i := by
  induction l generalizing i with
  | nil => rfl
  | cons x xs ih =>
    simp only [lowestOf, specMin, List.foldl_cons] at ih ⊢
    have h : (if x.score < i then x.score else i) = min i x.score := by
      rw [min_def]; split_ifs <;> omega
    rw [h]; exact ih (min i x.score)

theorem highestOf_eq_specMax (l : List NodeScore) (i : Int) :
    highestOf l i = specMax l i := by
  induction l generalizing i with
  | nil => rfl
  | cons x xs ih =>
    simp only [highestOf, specMax, List.foldl_cons] at ih ⊢
    have h : (if i < x.score then x.score else i) = max i x.score := by
      rw [max_def]; split_ifs <;> omega
    rw [h]; exact ih (max i x.score)

theorem specMin_le_init (l : List NodeScore) (i : Int) : specMin l i ≤ i := by
  induction l generalizing i with
  | nil => exact le_refl i
  | cons x xs ih =>
    simp only [specMin, List.foldl_cons] at ih ⊢
    exact le_trans (ih (min i x.score)) (min_le_left i x.score)

theorem specMin_le_of_mem (l : List NodeScore) (i : Int) (ns : NodeScore)
    (h : ns ∈ l) : specMin l i ≤ ns.score := by
  induction l generalizing i with
  | nil => cases h
  | cons x xs ih =>
    simp only [specMin, List.foldl_cons] at ih ⊢
    rcases List.mem_cons.1 h with h0 | h0
    · subst h0
      exact le_trans (specMin_le_init xs (min i ns.score)) (min_le_right i ns.score)
    · exact ih (min i x.score) h0

theorem le_specMax_init (l : List NodeScore) (i : Int) : i ≤ specMax l i := by
  induction l generalizing i with
  | nil => exact le_refl i
  | cons x xs ih =>
    simp only [specMax, List.foldl_cons] at ih ⊢
    exact le_trans (le_max_left i x.score) (ih (max i x.score))

theorem le_specMax_of_mem (l : List NodeScore) (i : Int) (ns : NodeScore)
    (h : ns ∈ l) : ns.score ≤ specMax l i := by
  induction l generalizing i with
  | nil => cases h
  | cons x xs ih =>
    simp only [specMax, List.foldl_cons] at ih ⊢
    rcases List.mem_cons.1 h with h0 | h0
    · subst h0
      exact le_trans (le_max_right i ns.score) (le_specMax_init xs (max i ns.score))
    · exact ih (max i x.score) h0

theorem le_specMin (l : List NodeScore) (i c : Int) (hi : c ≤ i)
    (h : ∀ ns ∈ l, c ≤ ns.score) : c ≤ specMin l i := by
  induction l generalizing i with
  | nil => exact hi
  | cons x xs ih =>
    simp only [specMin, List.foldl_cons] at ih ⊢
    refine ih (min i x.score) (le_min hi ?_) (fun ns hns => h ns (List.mem_cons_of_mem x hns))
    exact h x (List.mem_cons_self x xs)

theorem specMax_le (l : List NodeScore) (i c : Int) (hi : i ≤ c)
    (h : ∀ ns ∈ l, ns.score ≤ c) : specMax l i ≤ c := by
  induction l generalizing i with
  | nil => exact hi
  | cons x xs ih =>
    simp only [specMax, List.foldl_cons] at ih ⊢
    refine ih (max i x.score) (max_le hi ?_) (fun ns hns => h ns (List.mem_cons_of_mem x hns))
    exact h x (List.mem_cons_self x xs)

theorem specMax_max (l : List NodeScore) (a b : Int) :
    specMax l (max a b) = max a (specMax l b) := by
  induction l generalizing b with
  | nil => rfl
  | cons x xs ih =>
    simp only [specMax, List.foldl_cons] at ih ⊢
    rw [max_assoc, ih (max b x.score)]

theorem normHighest_eq (s0 : NodeScore) (rest : List NodeScore) :
    normHighest s0 rest = max 0 (specMax (s0 :: rest) s0.score) := by
  have h1 : normHighest s0 rest = specMax rest (max 0 s0.score) := by
    rw [normHighest, highestOf_eq_specMax]
    simp [specMax, List.foldl_cons]
  have h2 : specMax (s0 :: rest) s0.score = specMax rest s0.score := by
    simp [specMax, List.foldl_cons]
  rw [h1, h2, specMax_max]

end Yoda

namespace Yoda

theorem normLowest_le_lowestOf (s0 : NodeScore) (rest : List NodeScore) :
    normLowest s0 rest ≤ lowestOf (s0 :: rest) s0.score := by
  unfold normLowest
  split_ifs <;> omega

theorem normLowest_le_score (s0 : NodeScore) (rest : List NodeScore)
    (ns : NodeScore) (h : ns ∈ s0 :: rest) : normLowest s0 rest ≤ ns.score := by
  refine le_trans (normLowest_le_lowestOf s0 rest) ?_
  rw [lowestOf_eq_specMin]
  exact specMin_le_of_mem _ _ _ h

theorem score_le_normHighest (s0 : NodeScore) (rest : List NodeScore)
    (ns : NodeScore) (h : ns ∈ s0 :: rest) : ns.score ≤ normHighest s0 rest := by
  rw [normHighest, highestOf_eq_specMax]
  exact le_specMax_of_mem _ _ _ h

theorem normLowest_lt_normHighest (s0 : NodeScore) (rest : List NodeScore) :
    normLowest s0 rest < normHighest s0 rest := by
  have h1 : lowestOf (s0 :: rest) s0.score ≤ s0.score := by
    rw [lowestOf_eq_specMin]; exact specMin_le_init _ _
  have h2 : s0.score ≤ normHighest s0 rest :=
    score_le_normHighest s0 rest s0 (List.mem_cons_self s0 rest)
  unfold normLowest
  split_ifs with h <;> omega

theorem lowestOf_sub_one_le_normLowest (s0 : NodeScore) (rest : List NodeScore) :
    lowestOf (s0 :: rest) s0.score - 1 ≤ normLowest s0 rest := by
  unfold normLowest
  split_ifs <;> omega

theorem wrap64_eq_self {x : Int} (h1 : -9223372036854775808 ≤ x)
    (h2 : x < 9223372036854775808) : wrap64 x = x := by
  unfold wrap64
  omega

theorem scale_tdiv_bounds (a D : Int) (ha : 0 ≤ a) (haD : a ≤ D) (hD : 0 < D) :
    0 ≤ (a * MaxNodeScore).tdiv D ∧ (a * MaxNodeScore).tdiv D ≤ MaxNodeScore := by
  have hnum : 0 ≤ a * MaxNodeScore := mul_nonneg ha (by norm_num [MaxNodeScore])
  rw [Int.tdiv_eq_ediv hnum (le_of_lt hD)]
  constructor
  · exact Int.ediv_nonneg hnum (le_of_lt hD)
  · have hle : a * MaxNodeScore ≤ D * MaxNodeScore :=
      mul_le_mul_of_nonneg_right haD (by norm_num [MaxNodeScore])
    have hc := Int.ediv_le_ediv hD hle
    rwa [Int.mul_ediv_cancel_left MaxNodeScore (by omega)] at hc

theorem normRewrite_eq_pure (s0 : NodeScore) (rest : List NodeScore)
    (hrange : normHighest s0 rest - normLowest s0 rest ≤ 72057594037927937)
    (ns : NodeScore) (hmem : ns ∈ s0 :: rest) :
    (normRewrite s0 rest ns).score =
      ((ns.score - normLowest s0 rest) * MaxNodeScore).tdiv
        (normHighest s0 rest - normLowest s0 rest) := by
  have h1 : normLowest s0 rest ≤ ns.score := normLowest_le_score s0 rest ns hmem
  have h2 : ns.score ≤ normHighest s0 rest := score_le_normHighest s0 rest ns hmem
  have h3 : normLowest s0 rest < normHighest s0 rest := normLowest_lt_normHighest s0 rest
  have hM : MaxNodeScore = 100 := rfl
  have ha : wrap64 (ns.score - normLowest s0 rest) = ns.score - normLowest s0 rest :=
    wrap64_eq_self (by omega) (by omega)
  have hb : wrap64 ((ns.score - normLowest s0 rest) * MaxNodeScore) =
      (ns.score - normLowest s0 rest) * MaxNodeScore := by
    apply wrap64_eq_self <;> rw [hM] <;> omega
  have hd : wrap64 (normHighest s0 rest - normLowest s0 rest) =
      normHighest s0 rest - normLowest s0 rest :=
    wrap64_eq_self (by omega) (by omega)
  have hq := scale_tdiv_bounds (ns.score - normLowest s0 rest)
    (normHighest s0 rest - normLowest s0 rest) (by omega) (by omega) (by omega)
  have hqw : wrap64 (((ns.score - normLowest s0 rest) * MaxNodeScore).tdiv
      (normHighest s0 rest - normLowest s0 rest)) =
      ((ns.score - normLowest s0 rest) * MaxNodeScore).tdiv
        (normHighest s0 rest - normLowest s0 rest) := by
    refine wrap64_eq_self (by have := hq.1; omega) ?_
    have := hq.2
    rw [hM] at this
    omega
  have hscore : (normRewrite s0 rest ns).score =
      wrap64 ((wrap64 (wrap64 (ns.score - normLowest s0 rest) * MaxNodeScore)).tdiv
        (wrap64 (normHighest s0 rest - normLowest s0 rest))) := rfl
  rw [hscore, ha, hb, hd, hqw]

end Yoda

namespace Yoda

/-- Claim C1: the specification requires `NormalizeScore` to treat an empty
score list as a successful no-op, but the code unconditionally reads
`scores[0].Score`, which faults (here: `none`) on the empty list. -/
theorem normalizeScore_nil_panics : NormalizeScore [] = none := rfl

/-- Claim C2, counterexample: for the single all-negative score list
`[("a", -5)]` the `highest` bound actually used by `NormalizeScore` is `0`
(the loop accumulator's initial value), not the list maximum `-5`. -/
theorem normalize_bounds_counterexample :
    normHighest ⟨"a", -5⟩ [] = 0 ∧
    specMax [⟨"a", -5⟩] (-5) = -5 ∧
    normHighest ⟨"a", -5⟩ [] ≠ specMax [⟨"a", -5⟩] (-5) := by
  refine ⟨rfl, rfl, ?_⟩
  decide

/-- Claim C2, amended: for every non-empty score list the `lowest` bound
used by `NormalizeScore` is exactly the minimum score, and the `highest`
bound is `max 0 (maximum score)` — the list maximum whenever some score is
non-negative, but `0` when every score is negative. -/
theorem normalize_bounds_amended (s0 : NodeScore) (rest : List NodeScore) :
    lowestOf (s0 :: rest) s0.score = specMin (s0 :: rest) s0.score ∧
    normHighest s0 rest = max 0 (specMax (s0 :: rest) s0.score) :=
  ⟨lowestOf_eq_specMin (s0 :: rest) s0.score, normHighest_eq s0 rest⟩

end Yoda

namespace Yoda

/-- Claim C3, counterexample: for the all-equal all-negative score list
`[("a", -1), ("b", -1)]` the degenerate branch does not fire (`highest`
stays `0 ≠ -1`), and every output is `0`, not `OutputMax`. -/
theorem normalize_uniform_counterexample :
    NormalizeScore [⟨"a", -1⟩, ⟨"b", -1⟩] = some [⟨"a", 0⟩, ⟨"b", 0⟩] ∧
    (0 : Int) ≠ MaxNodeScore := by
  exact ⟨rfl, by decide⟩

/-- Claim C3, amended: for every non-empty score list in which all scores
are equal and the common score is non-negative, `NormalizeScore` takes the
degenerate branch (`lowest` decremented by one, so the denominator is one)
and rewrites every machine's score to exactly `OutputMax`; in particular
`[10, 10, 10]` rewrites to all-`100`. -/
theorem normalize_uniform_amended (s0 : NodeScore) (rest : List NodeScore)
    (hall : ∀ ns ∈ s0 :: rest, ns.score = s0.score) (hpos : 0 ≤ s0.score) :
    NormalizeScore (s0 :: rest) =
      some ((s0 :: rest).map (fun ns => { ns with score := MaxNodeScore })) := by
  have hL0 : lowestOf (s0 :: rest) s0.score = s0.score := by
    rw [lowestOf_eq_specMin]
    refine le_antisymm (specMin_le_init _ _) ?_
    exact le_specMin _ _ _ (le_refl _) (fun ns hns => (hall ns hns).ge)
  have hH : normHighest s0 rest = s0.score := by
    rw [normHighest_eq]
    have hs : specMax (s0 :: rest) s0.score = s0.score := by
      refine le_antisymm ?_ (le_specMax_of_mem _ _ _ (List.mem_cons_self s0 rest))
      exact specMax_le _ _ _ (le_refl _) (fun ns hns => (hall ns hns).le)
    rw [hs, max_eq_right hpos]
  have hL : normLowest s0 rest = s0.score - 1 := by
    unfold normLowest
    rw [hL0, hH, if_pos rfl]
  show some ((s0 :: rest).map (normRewrite s0 rest)) = _
  congr 1
  refine List.map_congr_left (fun ns hns => ?_)
  have hns' := hall ns hns
  have hval : wrap64 ((wrap64 (wrap64 (ns.score - normLowest s0 rest) *
      MaxNodeScore)).tdiv (wrap64 (normHighest s0 rest - normLowest s0 rest))) =
      MaxNodeScore := by
    rw [hL, hH, hns']
    have h1 : s0.score - (s0.score - 1) = 1 := by omega
    rw [h1]
    decide
  unfold normRewrite
  rw [hval]

/-- Claim C3, witness: scores `[10, 10, 10]` all rewrite to `100`. -/
theorem normalize_uniform_witness :
    NormalizeScore [⟨"a", 10⟩, ⟨"b", 10⟩, ⟨"c", 10⟩] =
      some [⟨"a", 100⟩, ⟨"b", 100⟩, ⟨"c", 100⟩] := by
  have h := normalize_uniform_amended ⟨"a", 10⟩ [⟨"b", 10⟩, ⟨"c", 10⟩]
    (by decide) (by decide)
  rw [h]
  rfl

end Yoda

namespace Yoda

/-- Claim C4, counterexample: for scores `[("a", -10), ("b", -5)]` (minimum
`-10` and maximum `-5` differ), the spec formula
`(score - lowest) * OutputMax / (highest - lowest)` gives `100` for "b",
but the code rewrites "b" to `50` (its `highest` is the accumulator start
`0`, not the list maximum). -/
theorem normalize_formula_counterexample :
    NormalizeScore [⟨"a", -10⟩, ⟨"b", -5⟩] = some [⟨"a", 0⟩, ⟨"b", 50⟩] ∧
    ((((-5 : Int) - specMin [⟨"a", -10⟩, ⟨"b", -5⟩] (-10)) * MaxNodeScore).tdiv
      (specMax [⟨"a", -10⟩, ⟨"b", -5⟩] (-10) -
        specMin [⟨"a", -10⟩, ⟨"b", -5⟩] (-10))) = 100 ∧
    (50 : Int) ≠ 100 := by
  exact ⟨rfl, rfl, by decide⟩

/-- Claim C4, amended: for every non-empty score list, with
`lowest = min(scores)` and `highest = max 0 (max(scores))` (the list
maximum except that it is `0` when all scores are negative), whenever
`lowest ≠ highest` and the spread `highest - lowest` is at most `2^56`
(so no step of Go's `int64` arithmetic overflows), the code rewrites each
machine's score to `(score - lowest) * OutputMax / (highest - lowest)`
with `OutputMax = 100`; on such non-negative score lists whose minimum
and maximum differ this is exactly the spec formula, and `[0, 50, 100]`
rewrites to itself. -/
theorem normalize_formula_amended (s0 : NodeScore) (rest : List NodeScore)
    (h : specMin (s0 :: rest) s0.score ≠ max 0 (specMax (s0 :: rest) s0.score))
    (hrange : max 0 (specMax (s0 :: rest) s0.score) -
      specMin (s0 :: rest) s0.score ≤ 72057594037927936) :
    NormalizeScore (s0 :: rest) =
      some ((s0 :: rest).map (fun ns =>
        { ns with score :=
            (((ns.score - specMin (s0 :: rest) s0.score) * MaxNodeScore).tdiv
              (max 0 (specMax (s0 :: rest) s0.score) -
                specMin (s0 :: rest) s0.score)) })) := by
  have hL : normLowest s0 rest = specMin (s0 :: rest) s0.score := by
    unfold normLowest
    simp only [lowestOf_eq_specMin, normHighest_eq]
    rw [if_neg (fun hh => h hh.symm)]
  have hH := normHighest_eq s0 rest
  have hrange' : normHighest s0 rest - normLowest s0 rest ≤ 72057594037927937 := by
    rw [hL, hH]
    omega
  show some ((s0 :: rest).map (normRewrite s0 rest)) = _
  congr 1
  refine List.map_congr_left (fun ns hns => ?_)
  have hname : normRewrite s0 rest ns =
      ⟨ns.name, (normRewrite s0 rest ns).score⟩ := rfl
  rw [hname, normRewrite_eq_pure s0 rest hrange' ns hns, hL, hH]

/-- Claim C4, witness: scores `[0, 50, 100]` (spread `100`, far below the
overflow bound) rewrite to exactly `[0, 50, 100]`. -/
theorem normalize_formula_witness :
    NormalizeScore [⟨"a", 0⟩, ⟨"b", 50⟩, ⟨"c", 100⟩] =
      some [⟨"a", 0⟩, ⟨"b", 50⟩, ⟨"c", 100⟩] := by
  have h := normalize_formula_amended ⟨"a", 0⟩ [⟨"b", 50⟩, ⟨"c", 100⟩]
    (by decide) (by decide)
  rw [h]
  rfl

end Yoda

namespace Yoda

/-- Claim C8, counterexample: for scores `[("a", 0), ("b", 2^57)]` the Go
`int64` product `(2^57 - 0) * 100` overflows (wraps to a negative value)
and the machine "b" is rewritten to `-28`, outside `[0, OutputMax]`. -/
theorem normalize_output_bounded_counterexample :
    NormalizeScore [⟨"a", 0⟩, ⟨"b", 144115188075855872⟩] =
      some [⟨"a", 0⟩, ⟨"b", -28⟩] ∧
    ¬ (0 ≤ (-28 : Int)) := by
  exact ⟨rfl, by decide⟩

/-- Claim C8, amended: for every non-empty score list whose spread
`max 0 (max(scores)) - min(scores)` is at most `2^56` — so that no step of
Go's `int64` arithmetic in the rewrite overflows — every score rewritten by
`NormalizeScore` lies in the bounded output range `[0, OutputMax]` with
`OutputMax = framework.MaxNodeScore = 100`. -/
theorem normalize_output_bounded (s0 : NodeScore) (rest : List NodeScore)
    (hrange : max 0 (specMax (s0 :: rest) s0.score) -
      specMin (s0 :: rest) s0.score ≤ 72057594037927936)
    (out : List NodeScore) (hout : NormalizeScore (s0 :: rest) = some out) :
    ∀ ns ∈ out, 0 ≤ ns.score ∧ ns.score ≤ MaxNodeScore := by
  have hrange' : normHighest s0 rest - normLowest s0 rest ≤ 72057594037927937 := by
    have hh := normHighest_eq s0 rest
    have hl := lowestOf_sub_one_le_normLowest s0 rest
    have hm := lowestOf_eq_specMin (s0 :: rest) s0.score
    omega
  have hmap : NormalizeScore (s0 :: rest) =
      some ((s0 :: rest).map (normRewrite s0 rest)) := rfl
  rw [hmap] at hout
  obtain rfl : (s0 :: rest).map (normRewrite s0 rest) = out := Option.some.inj hout
  intro ns hns
  obtain ⟨ms, hms, rfl⟩ := List.mem_map.1 hns
  have h1 : normLowest s0 rest ≤ ms.score := normLowest_le_score s0 rest ms hms
  have h2 : ms.score ≤ normHighest s0 rest := score_le_normHighest s0 rest ms hms
  have h3 : normLowest s0 rest < normHighest s0 rest := normLowest_lt_normHighest s0 rest
  rw [normRewrite_eq_pure s0 rest hrange' ms hms]
  exact scale_tdiv_bounds (ms.score - normLowest s0 rest)
    (normHighest s0 rest - normLowest s0 rest) (by omega) (by omega) (by omega)

/-- Claim C8, witness: `NormalizeScore` on the single score `3` (spread
`0`, within the overflow bound) rewrites it to `100`, inside `[0, 100]`. -/
theorem normalize_output_bounded_witness :
    0 ≤ (NodeScore.mk "a" 100).score ∧ (NodeScore.mk "a" 100).score ≤ MaxNodeScore :=
  normalize_output_bounded ⟨"a", 3⟩ [] (by decide) [⟨"a", 100⟩] rfl
    ⟨"a", 100⟩ (by decide)

/-- Claim C10: `NormalizeScore` on a non-empty list rewrites only the Score
field of each entry: the list length, the order of entries, and every
entry's Name field are unchanged. -/
theorem normalize_frame_preservation (s0 : NodeScore) (rest : List NodeScore) :
    ∃ out, NormalizeScore (s0 :: rest) = some out ∧
      out.length = (s0 :: rest).length ∧
      out.map NodeScore.name = (s0 :: rest).map NodeScore.name := by
  refine ⟨(s0 :: rest).map (normRewrite s0 rest), rfl, List.length_map _ _, ?_⟩
  rw [List.map_map]
  exact List.map_congr_left (fun a _ => rfl)

end Yoda

namespace Yoda

/-- Claim C5: the fitness filter short-circuits on the device-count check —
if no device entry has free count ≥ the requested count the machine fails
with the plain infeasible status whatever the memory and clock floors are
(the memory/clock checks are never consulted) — and the machine passes if
and only if the device-count check, the memory check on the matched device,
and the clock check on the matched device all pass. -/
theorem filter_short_circuit_iff (nodeName : String) (inv : List Device)
    (req : ResourceRequest) :
    ((∀ d ∈ inv, d.count < req.number) →
      ∀ m c : Nat, Filter nodeName (.ok inv) ⟨req.number, m, c⟩ =
        ⟨.Unschedulable, "Node:" ++ nodeName⟩) ∧
    (Filter nodeName (.ok inv) req = ⟨.Success, ""⟩ ↔
      ((PodFitsNumber req inv).1 = true ∧
        PodFitsMemory (PodFitsNumber req inv).2 req inv = true ∧
        PodFitsClock (PodFitsNumber req inv).2 req inv = true)) := by
  constructor
  · intro hnone m c
    have hidx : inv.findIdx? (fun d => decide (req.number ≤ d.count)) = none := by
      rw [List.findIdx?_eq_none_iff]
      intro d hd
      simpa using Nat.not_le.2 (hnone d hd)
    simp [Filter, PodFitsNumber, hidx]
  · cases hfn : PodFitsNumber req inv with
    | mk b i =>
      cases b with
      | false => simp [Filter, hfn]
      | true =>
        cases hm : PodFitsMemory i req inv <;> cases hc : PodFitsClock i req inv <;>
          simp [Filter, hfn, hm, hc]

/-- Claim C5, witness: a machine whose only device has zero free units
fails for a one-device request whatever its memory/clock (short-circuit),
and a machine with a fitting device that also satisfies both floors
passes. -/
theorem filter_short_circuit_witness :
    Filter "n1" (.ok [⟨0, 99, 99⟩]) ⟨1, 7, 7⟩ =
      ⟨.Unschedulable, "Node:" ++ "n1"⟩ ∧
    Filter "n2" (.ok [⟨2, 8, 4⟩]) ⟨1, 4, 2⟩ = ⟨.Success, ""⟩ :=
  ⟨(filter_short_circuit_iff "n1" [⟨0, 99, 99⟩] ⟨1, 0, 0⟩).1 (by decide) 7 7,
    (filter_short_circuit_iff "n2" [⟨2, 8, 4⟩] ⟨1, 4, 2⟩).2.mpr
      ⟨by decide, by decide, by decide⟩⟩

end Yoda

namespace Yoda

/-- Claim C6: when the inventory lookup for a machine fails, `Filter`
returns an `Unschedulable` status (not an internal fault) whose reason
string carries the lookup error text, while every infeasible (non-success)
outcome of a successful lookup carries only the node name; the two reason
strings always differ. -/
theorem filter_lookup_failure_distinct (nodeName e : String)
    (req : ResourceRequest) (inv : List Device) :
    Filter nodeName (.error e) req =
      ⟨.Unschedulable, "Node:" ++ nodeName ++ " " ++ e⟩ ∧
    (Filter nodeName (.ok inv) req ≠ ⟨.Success, ""⟩ →
      Filter nodeName (.ok inv) req = ⟨.Unschedulable, "Node:" ++ nodeName⟩) ∧
    "Node:" ++ nodeName ++ " " ++ e ≠ "Node:" ++ nodeName := by
  refine ⟨rfl, ?_, ?_⟩
  · intro hne
    unfold Filter at hne ⊢
    dsimp only at hne ⊢
    split_ifs at hne ⊢ <;> first | rfl | exact absurd rfl hne
  · intro heq
    have hlen := congrArg String.length heq
    simp only [String.length_append] at hlen
    have : (" " : String).length = 1 := rfl
    omega

/-- Claim C6, witness: with lookup error `"boom"` on node `"n"`, `Filter`
is unschedulable with the error carried in the reason, and an infeasible
node yields the plain `"Node:n"` reason. -/
theorem filter_lookup_failure_witness :
    Filter "n" (.error "boom") ⟨1, 0, 0⟩ =
      ⟨.Unschedulable, "Node:" ++ "n" ++ " " ++ "boom"⟩ ∧
    Filter "n" (.ok []) ⟨1, 0, 0⟩ = ⟨.Unschedulable, "Node:" ++ "n"⟩ :=
  ⟨(filter_lookup_failure_distinct "n" "boom" ⟨1, 0, 0⟩ []).1,
    (filter_lookup_failure_distinct "n" "boom" ⟨1, 0, 0⟩ []).2.1 (by decide)⟩

end Yoda

namespace Yoda

/-- Claim C7: when a required dimension maximum is absent from the cycle
state (the Aggregator pass was skipped or mis-ordered), `Score` propagates
the score-calculation failure as a non-success `Error` status (score `0`
with the wrapped error reason) instead of silently returning a score. -/
theorem score_missing_max_errors (nodeName : String) (inv : List Device)
    (st : CycleState)
    (h : st.maxNumber = none ∨ st.maxMemory = none ∨ st.maxClock = none) :
    Score nodeName (.ok ()) (.ok inv) st =
      (0, ⟨.Error, "Score Node Error: " ++ "max value missing from cycle state"⟩) ∧
    (Score nodeName (.ok ()) (.ok inv) st).2.code ≠ Code.Success := by
  obtain ⟨mn, mm, mc⟩ := st
  have hcalc : CalculateScore inv ⟨mn, mm, mc⟩ =
      .error "max value missing from cycle state" := by
    rcases h with h | h | h <;> cases mn <;> cases mm <;> cases mc <;>
      simp_all [CalculateScore]
  constructor
  · show (match CalculateScore inv ⟨mn, mm, mc⟩ with
      | .error e => ((0 : Int), Status.mk .Error ("Score Node Error: " ++ e))
      | .ok u => (Uint64ToInt64 u, Status.mk .Success "")) = _
    rw [hcalc]
  · show (match CalculateScore inv ⟨mn, mm, mc⟩ with
      | .error e => ((0 : Int), Status.mk .Error ("Score Node Error: " ++ e))
      | .ok u => (Uint64ToInt64 u, Status.mk .Success "")).2.code ≠ Code.Success
    rw [hcalc]
    decide

/-- Claim C7, witness: with the device-count maximum missing, `Score`
returns score `0` and an `Error` status. -/
theorem score_missing_max_witness :
    Score "n" (.ok ()) (.ok []) ⟨none, some 1, some 1⟩ =
      (0, ⟨.Error, "Score Node Error: " ++ "max value missing from cycle state"⟩) :=
  (score_missing_max_errors "n" [] ⟨none, some 1, some 1⟩ (Or.inl rfl)).1

end Yoda

namespace Yoda

/-- Claim C9: the queue comparator `Less` is a strict weak ordering over
pending workloads: irreflexive (`Less a a` is false), asymmetric
(`Less a b` and `Less b a` are never both true), and transitive
(`Less a b` and `Less b c` imply `Less a c`). -/
theorem less_strict_weak_order :
    (∀ a : QueuedPodInfo, Less a a = false) ∧
    (∀ a b : QueuedPodInfo, Less a b = true → Less b a = false) ∧
    (∀ a b c : QueuedPodInfo, Less a b = true → Less b c = true →
      Less a c = true) := by
  refine ⟨?_, ?_, ?_⟩
  · intro a
    simp [Less]
  · intro a b hab
    cases hba : Less b a with
    | false => rfl
    | true =>
      exfalso
      simp only [Less, Bool.or_eq_true, Bool.and_eq_true, decide_eq_true_eq]
        at hab hba
      omega
  · intro a b c hab hbc
    simp only [Less, Bool.or_eq_true, Bool.and_eq_true, decide_eq_true_eq]
      at hab hbc ⊢
    omega

/-- Claim C9, witness: transitivity of `Less` at three concrete workloads
with priorities `2 > 1 > 0`. -/
theorem less_strict_weak_order_witness :
    Less ⟨2, 5⟩ ⟨0, 3⟩ = true :=
  less_strict_weak_order.2.2 ⟨2, 5⟩ ⟨1, 4⟩ ⟨0, 3⟩ (by decide) (by decide)

end Yoda
